import Mathlib

/-!
Verification of the localize-router route-translation core.

The definitions below are a shallow embedding of the TypeScript sources:
`LocalizeParser` (abstract parser: `init`, `translateRoutes`,
`_translateRouteTree`, `_getTranslatePromise`, `translateRoute`,
`getLocationLang`, `_getBrowserLang`, `_cachedLang`, `_returnIfInLocales`)
and `LocalizeRouterService` (`changeLanguage` and its URL post-processing).

JavaScript conventions embedded explicitly:
- an optional string field is `Option String`; JS truthiness of a string is
  "present and non-empty" (`truthy`);
- the JS `a || b` on strings keeps `a` when it is truthy, else `b` (`jsOr`);
- `path.split(c)` for a one-character separator is `jsSplit c path`, a
  kernel-computable recursion with the exact JS semantics (an empty string
  splits to `[""]`, separators at the ends produce empty components);
- `Array.prototype.indexOf` returning `-1` for a missing element is
  `firstIdx` returning `none`;
- the translation provider (`TranslateService.get`) is a deterministic
  function `String → String` returning the key itself when no translation is
  registered (its miss sentinel); a timed variant `String → String × Nat`
  additionally carries the latency at which the lookup observable emits, so
  that completion-order questions can be stated.
-/

namespace LocalizeRouter

/-- truthiness of an optional JS string: present and non-empty. -/
def truthy : Option String → Bool
  | some s => s ≠ ""
  | none => false

/-- embedding of the JS `a || b` for optional strings: `a` when truthy, else `b`. -/
def jsOr (a b : Option String) : Option String :=
  if truthy a then a else b

/-- membership test used for `this.locales.indexOf(x) !== -1`. -/
def inLocales (locales : List String) (s : String) : Bool :=
  locales.contains s

/-- character-list worker for `jsSplit`. -/
def jsSplitChars (sep : Char) : List Char → List (List Char)
  | [] => [[]]
  | x :: xs =>
    if x = sep then [] :: jsSplitChars sep xs
    else match jsSplitChars sep xs with
      | s :: ss => (x :: s) :: ss
      | [] => [[x]]

/-- embedding of the JS `s.split(sep)` for a one-character separator. -/
def jsSplit (sep : Char) (s : String) : List String :=
  (jsSplitChars sep s.data).map (fun l => String.mk l)

/-- embedding of `Array.prototype.indexOf`: index of the first occurrence,
`none` for the JS `-1`. -/
def firstIdx (x : String) : List String → Option Nat
  | [] => none
  | y :: ys => if y = x then some 0 else (firstIdx x ys).map (· + 1)

/-! ## Segment and path translation (`LocalizeParser.translateRoute`) -/

/-- embedding of `LocalizeParser.translateRoute` (the string-level translator):
split the path on `/`, look up every non-empty segment under `pre ++ segment`
(an empty segment becomes a synchronously resolved `Observable.of`), then
replace any result equal to its own lookup key (the miss sentinel) by the
original segment, and rejoin with `/`.  The sentinel fixup loop of the source
runs over every index, so it is applied to empty segments as well. -/
def translateRoute (lookup : String → String) (pre : String) (path : String) : String :=
  let pathSegments := jsSplit '/' path
  let translatedSegments := pathSegments.map (fun part =>
    if part.length ≠ 0 then lookup (pre ++ part) else part)
  let fixedSegments := (translatedSegments.zip pathSegments).map (fun pr =>
    if pr.1 = pre ++ pr.2 then pr.2 else pr.1)
  String.intercalate "/" fixedSegments

/-- the per-component translation result as the spec describes it: an empty
component passes through unchanged; a non-empty component is looked up under
`pre ++ s`, with fallback to `s` exactly when the lookup returns the key
verbatim. -/
def translateSegmentSpec (lookup : String → String) (pre : String) (part : String) : String :=
  if part = "" then part
  else if lookup (pre ++ part) = pre ++ part then part
  else lookup (pre ++ part)

/-- timed embedding of the per-segment observable built inside
`translateRoute`: a non-empty segment is a provider lookup emitting its result
at the provider latency; an empty segment is `Observable.of(part)`, emitting
immediately (latency 0). -/
def segmentObservableT (lookupT : String → String × Nat) (pre : String) (part : String) :
    String × Nat :=
  if part.length ≠ 0 then lookupT (pre ++ part) else (part, 0)

/-- timed embedding of `Observable.forkJoin`: the emitted array holds each
source observable's value at that observable's own index (never completion
order), and the join emits once the last source has emitted. -/
def forkJoinT (obs : List (String × Nat)) : List String × Nat :=
  (obs.map Prod.fst, obs.foldr (fun o acc => max o.2 acc) 0)

/-- timed embedding of `LocalizeParser.translateRoute`: the same computation
as `translateRoute`, with each segment lookup carrying a latency and the
aggregation performed by the timed `forkJoinT`. -/
def translateRouteT (lookupT : String → String × Nat) (pre : String) (path : String) :
    String × Nat :=
  let pathSegments := jsSplit '/' path
  let joined := forkJoinT (pathSegments.map (segmentObservableT lookupT pre))
  let fixedSegments := (joined.1.zip pathSegments).map (fun pr =>
    if pr.1 = pre ++ pr.2 then pr.2 else pr.1)
  (String.intercalate "/" fixedSegments, joined.2)

/-! ## Route tree model (`Route` of the routing framework, as the parser uses it) -/

/-- a route configuration node: the fields of the framework `Route` object
that the parser reads or writes (`path`, `redirectTo`, `pathMatch`,
`children`).  Absent JS fields are `none`. -/
inductive Route where
  | mk (path redirectTo pathMatch : Option String) (children : Option (List Route))

/-- the `path` field of a route node. -/
def Route.path : Route → Option String
  | .mk p _ _ _ => p

/-- the `redirectTo` field of a route node. -/
def Route.redirectTo : Route → Option String
  | .mk _ r _ _ => r

/-- the `pathMatch` field of a route node. -/
def Route.pathMatch : Route → Option String
  | .mk _ _ m _ => m

/-- the `children` field of a route node. -/
def Route.children : Route → Option (List Route)
  | .mk _ _ _ c => c

/-- a route node with every field absent; stands for the JS `undefined` that
`originals[index]` yields past the end of the originals array. -/
def emptyRoute : Route := .mk none none none none

mutual

/-- structural clone of one route node; embedding of what
`JSON.parse(JSON.stringify(·))` does to a route object (all fields of the
model are plain data, so the JSON round trip is a deep structural copy). -/
def cloneRoute : Route → Route
  | .mk p rd pm none => .mk p rd pm none
  | .mk p rd pm (some cs) => .mk p rd pm (some (cloneRoutes cs))

/-- structural clone of a route array; embedding of
`JSON.parse(JSON.stringify(routes))`. -/
def cloneRoutes : List Route → List Route
  | [] => []
  | r :: rs => cloneRoute r :: cloneRoutes rs

end

/-! ## Tree translation (`_translateRouteTree` and `_getTranslatePromise`)

The source walks the live nodes with their index-aligned original nodes.  For
a live node with a truthy `path` it creates a promise translating the
ORIGINAL node's `path` and writing the result into the live node; likewise
for `redirectTo`; a node with a `children` array recurses into it with the
original node's `children` as alignment reference.  The value-level outcome
of all those writes, once every created promise has settled, is the pure
tree computed by `translateTreeList` (the lookup provider is a deterministic
function, so the written values do not depend on settlement order). -/

mutual

/-- value-level effect of `_translateRouteTree` on one live node `r` aligned
with original node `o`, after all its translation promises have settled. -/
def translateNode (lookup : String → String) (pre : String) (r o : Route) : Route :=
  match r, o with
  | .mk p rd pm cs, .mk op ord _ ocs =>
    .mk (if truthy p then some (translateRoute lookup pre (op.getD "")) else p)
        (if truthy rd then some (translateRoute lookup pre (ord.getD "")) else rd)
        pm
        (match cs with
         | some l => some (translateTreeList lookup pre l (ocs.getD []))
         | none => none)

/-- value-level effect of `_translateRouteTree(routes, originals)` after all
translation promises anywhere in the tree have settled: each live node is
paired with `originals[index]` (`emptyRoute` when the originals run out,
where the source would read fields off `undefined`). -/
def translateTreeList (lookup : String → String) (pre : String) :
    List Route → List Route → List Route
  | [], _ => []
  | r :: rs, os =>
    translateNode lookup pre r (os.headD emptyRoute) :: translateTreeList lookup pre rs os.tail

end

/-! ## Promise bookkeeping of `_translateRouteTree`

`_translateRouteTree` pushes into its local `promises` array one promise per
truthy `path` and one per truthy `redirectTo` of the nodes of the level it
was called on, and then recurses into `children` WITHOUT pushing the promise
returned by the recursive call; the promise it returns is
`Promise.all(promises)` over that local array only.  The keys below name the
translation promises by node position (the index path from the call root)
and field, so that the set a returned promise actually awaits can be
compared with the set of promises the whole walk creates. -/

/-- keys of the translation promises `_translateRouteTree` creates for one
node itself (not its children): one per truthy `path`, one per truthy
`redirectTo`, in source push order. -/
def ownKeys (pos : List Nat) (r : Route) : List (List Nat × String) :=
  (if truthy r.path then [(pos, "path")] else []) ++
    (if truthy r.redirectTo then [(pos, "redirectTo")] else [])

/-- keys of the promises collected into the local `promises` array of a
single `_translateRouteTree` invocation: the nodes of that level only, since
the recursive call's returned promise is not pushed. -/
def collectedKeys (pos : List Nat) (i : Nat) : List Route → List (List Nat × String)
  | [] => []
  | r :: rs => ownKeys (pos ++ [i]) r ++ collectedKeys pos (i + 1) rs

mutual

/-- keys of every translation promise the recursive walk starting at node `r`
(at position `pos`) creates anywhere, children included. -/
def allKeysRoute (pos : List Nat) (r : Route) : List (List Nat × String) :=
  ownKeys pos r ++
    (match r with
     | .mk _ _ _ (some cs) => allKeysList pos 0 cs
     | .mk _ _ _ none => [])

/-- keys of every translation promise the recursive walk over a node list
creates anywhere, children included. -/
def allKeysList (pos : List Nat) (i : Nat) : List Route → List (List Nat × String)
  | [] => []
  | r :: rs => allKeysRoute (pos ++ [i]) r ++ allKeysList pos (i + 1) rs

end

/-! ## Locale resolution (`getLocationLang`, `_cachedLang`, `_getBrowserLang`, `init`) -/

/-- embedding of `LocalizeParser.getLocationLang`: split the url on `/`; the
second component when the array has more than one entry and that component is
in the locale list, else the first component when it is in the locale list,
else null. -/
def getLocationLang (locales : List String) (url : String) : Option String :=
  let pathSlices := jsSplit '/' url
  if (pathSlices.get? 1).any (inLocales locales) then pathSlices.get? 1
  else if (pathSlices.get? 0).any (inLocales locales) then pathSlices.get? 0
  else none

/-- embedding of `LocalizeParser._returnIfInLocales`: the value when it is
truthy and a member of the locale list, else null. -/
def returnIfInLocales (locales : List String) (value : Option String) : Option String :=
  if truthy value && value.any (inLocales locales) then value else none

/-- embedding of the `init` line
`let defaultLanguage = this._cachedLang || this._getBrowserLang() || this.locales[0]`:
the cached locale when valid, else the browser locale when valid, else the
first configured locale (`_cachedLang` and `_getBrowserLang` both filter
through `_returnIfInLocales`). -/
def resolveDefaultLanguage (locales : List String) (cached browser : Option String) :
    Option String :=
  jsOr (returnIfInLocales locales cached)
    (jsOr (returnIfInLocales locales browser) (locales.get? 0))

/-- embedding of the `init` lines
`let locationLang = this.getLocationLang(); ... selectedLanguage = locationLang || defaultLanguage`:
the locale the first `init` call selects for translation. -/
def resolveInitialLocale (locales : List String) (url : String) (cached browser : Option String) :
    Option String :=
  jsOr (getLocationLang locales url) (resolveDefaultLanguage locales cached browser)

/-! ## Parser state and its operations -/

/-- the mutable fields of `LocalizeParser` the claims are about:
`routes` (`none` before the first `init` call), `originalRouteNames`
(`[]` before the first `init` call, when the JS field is still undefined and
unread), `locales`, `currentLang`, the translate service's default language
(`translate.setDefaultLang` / `getDefaultLang`), and the
local-storage-backed `_cachedLang`. -/
structure ParserState where
  routes : Option (List Route)
  originalRouteNames : List Route
  locales : List String
  currentLang : Option String
  defaultLang : Option String
  cachedLang : Option String

/-- update of the element at one index of a route array, as the JS
`arr[i].field = v` writes do; an out-of-range index leaves the array
unchanged (the source would throw there). -/
def modifyAt (f : Route → Route) : Nat → List Route → List Route
  | _, [] => []
  | 0, r :: rs => f r :: rs
  | n + 1, r :: rs => r :: modifyAt f n rs

/-- embedding of `LocalizeParser.translateRoutes(language)`: synchronously
set `currentLang` and the cached locale to `language` and write `language`
into `this.routes[1].path`, then translate `this.routes[1].children` in
place against `originalRouteNames`.  The argument is an `Option String`
because the `init` append branch forwards a possibly undefined
`this.currentLang`.  A missing `children` array would crash the source
(`forEach` of undefined) and is modeled as no write. -/
def translateRoutesState (lookup : String → String) (pre : String)
    (st : ParserState) (language : Option String) : ParserState :=
  { st with
    currentLang := language
    cachedLang := language
    routes := st.routes.map (modifyAt (fun r =>
      match r with
      | .mk _ rd pm cs =>
        .mk language rd pm
          (cs.map (fun l => translateTreeList lookup pre l st.originalRouteNames))) 1) }

/-- the route restructuring the first `init` call performs (source lines:
snapshot `originalRouteNames` via the JSON round trip, register the resolved
default language with the translate service, then splice the live array down
to the default-redirect node and push the container node holding the
original `routes` array as `children`). -/
def initFirstRestructured (st : ParserState) (routes : List Route)
    (browserLang : Option String) : ParserState :=
  let defaultLanguage := resolveDefaultLanguage st.locales st.cachedLang browserLang
  { st with
    originalRouteNames := cloneRoutes routes
    defaultLang := defaultLanguage
    routes := some
      [Route.mk (some "") defaultLanguage (some "full") none,
       Route.mk none none none (some routes)] }

/-- embedding of `LocalizeParser.init(routes)`.  First call (`this.routes`
unset): snapshot and restructure, then translate with the resolved initial
locale — unless the locale list is empty, in which case it resolves
immediately after the snapshot.  Later calls: prepend clones of the new
routes to `originalRouteNames`, prepend the new routes to
`this.routes[1].children`, and retranslate with the current language. -/
def init (lookup : String → String) (pre : String) (st : ParserState)
    (routes : List Route) (url : String) (browserLang : Option String) : ParserState :=
  match st.routes with
  | some _ =>
    let st1 := { st with
      originalRouteNames := cloneRoutes routes ++ st.originalRouteNames
      routes := st.routes.map (modifyAt (fun r =>
        match r with
        | .mk p rd pm cs => .mk p rd pm (cs.map (fun l => routes ++ l))) 1) }
    translateRoutesState lookup pre st1 st.currentLang
  | none =>
    if st.locales.isEmpty then
      { st with routes := some routes, originalRouteNames := cloneRoutes routes }
    else
      translateRoutesState lookup pre (initFirstRestructured st routes browserLang)
        (resolveInitialLocale st.locales url st.cachedLang browserLang)

/-- embedding of `LocalizeRouterService.changeLanguage(lang)` at the parser
state level: a no-op when `lang` already equals `currentLang`, else
`translateRoutes(lang)` (navigation is modeled separately by the event
traces below). -/
def changeLanguageState (lookup : String → String) (pre : String)
    (st : ParserState) (lang : String) : ParserState :=
  if st.currentLang = some lang then st
  else translateRoutesState lookup pre st (some lang)

/-- embedding of the `LocalizeRouterService` route-change handler: on a
navigation-start event for `url`, read the locale embedded in `url`; when it
is truthy and differs from `currentLang`, `translateRoutes` to it. -/
def routeChangedState (lookup : String → String) (pre : String)
    (st : ParserState) (url : String) : ParserState :=
  match getLocationLang st.locales url with
  | some l => if l ≠ "" ∧ st.currentLang ≠ some l
      then translateRoutesState lookup pre st (some l) else st
  | none => st

/-- the spec invariant on the active locale: unset, or a member of the
configured locale list. -/
def langInvariant (st : ParserState) : Bool :=
  st.currentLang.all (inLocales st.locales)

/-! ## URL post-processing of `changeLanguage` (service, prefix policy) -/

/-- embedding of the url rewrite inside `LocalizeRouterService.changeLanguage`
(the block guarded by `!this.settings.alwaysSetPrefix`): split the
reconstructed url on `/`; when the new language (already written to
`currentLang` by `translateRoutes`) equals the default language, drop its
first occurrence when that occurrence sits at index 0, or at index 1 behind
an empty leading segment; when it differs from the default and occurs
nowhere, insert it at index 1 behind an empty leading segment, else at
index 0; rejoin with `/`. -/
def processChangeUrl (alwaysSetPrefix : Bool) (currentLang defaultLang : String)
    (url : String) : String :=
  if alwaysSetPrefix then url
  else
    let urlSegments := jsSplit '/' url
    let languageSegmentIndex := firstIdx currentLang urlSegments
    let urlSegments2 :=
      if currentLang = defaultLang then
        match languageSegmentIndex with
        | some i =>
          if i = 0 ∨ (i = 1 ∧ urlSegments.get? 0 = some "") then
            urlSegments.take i ++ urlSegments.drop (i + 1)
          else urlSegments
        | none => urlSegments
      else
        match languageSegmentIndex with
        | some _ => urlSegments
        | none =>
          let injectionIndex := if urlSegments.get? 0 = some "" then 1 else 0
          urlSegments.take injectionIndex ++ currentLang :: urlSegments.drop injectionIndex
    String.intercalate "/" urlSegments2

/-! ## Observable side-effect order of a locale change

`translateRoutes` performs its assignments synchronously when called:
`translate.use`, `currentLang`, the cached locale, `routes[1].path`, and
then starts the tree translation; `changeLanguage` subscribes to the result
and triggers navigation in the completion callback.  The traces record that
order of externally visible effects. -/

/-- an externally visible effect during a locale change. -/
inductive Event where
  | useLang (l : String)
  | setCurrentLang (l : String)
  | setCachedLang (l : String)
  | setContainerPath (l : String)
  | treeTranslation
  | navigate (url : String)
deriving DecidableEq

/-- effect order of `LocalizeParser.translateRoutes(language)`: the four
synchronous assignments in source order, then the asynchronous tree
translation. -/
def translateRoutesTrace (language : String) : List Event :=
  [Event.useLang language, Event.setCurrentLang language,
   Event.setCachedLang language, Event.setContainerPath language,
   Event.treeTranslation]

/-- effect order of `LocalizeRouterService.changeLanguage(lang)`: nothing
when `lang` equals the current language; otherwise the `translateRoutes`
effects followed by the navigation issued in the completion callback. -/
def changeLanguageTrace (lang : String) (currentLang : Option String) (url : String) :
    List Event :=
  if currentLang = some lang then []
  else translateRoutesTrace lang ++ [Event.navigate url]

/-- events that update the active-locale field or the persisted preference. -/
def isLangUpdate : Event → Bool
  | .setCurrentLang _ => true
  | .setCachedLang _ => true
  | _ => false

/-- navigation events. -/
def isNavigate : Event → Bool
  | .navigate _ => true
  | _ => false

/-- a parameterized segment: one that begins with the `:` placeholder
marker. -/
def isParamSegment (s : String) : Bool :=
  s.data.head? = some ':'

/-! ## Helper lemmas -/

theorem strLength_eq_zero (s : String) : s.length = 0 ↔ s = "" := by
  constructor
  · intro h
    cases s with
    | mk data =>
      simp [String.length] at h
      simp [h]
  · intro h
    simp [h]

theorem fixupHead (lookup : String → String) (pre s : String) :
    (if (if s.length ≠ 0 then lookup (pre ++ s) else s) = pre ++ s then s
     else if s.length ≠ 0 then lookup (pre ++ s) else s) =
    translateSegmentSpec lookup pre s := by
  by_cases hs : s = ""
  · subst hs
    have h0 : ¬(("" : String).length ≠ 0) := by simp
    rw [if_neg h0]
    unfold translateSegmentSpec
    rw [if_pos rfl]
    split <;> rfl
  · have hlen : s.length ≠ 0 := fun h => hs ((strLength_eq_zero s).mp h)
    rw [if_pos hlen]
    unfold translateSegmentSpec
    rw [if_neg hs]

theorem fixup_eq_spec (lookup : String → String) (pre : String) (segs : List String) :
    ((segs.map (fun part => if part.length ≠ 0 then lookup (pre ++ part) else part)).zip segs).map
      (fun pr => if pr.1 = pre ++ pr.2 then pr.2 else pr.1) =
    segs.map (translateSegmentSpec lookup pre) := by
  induction segs with
  | nil => rfl
  | cons s rest ih =>
    simp only [List.map_cons, List.zip_cons_cons]
    rw [ih]
    exact congrArg₂ _ (fixupHead lookup pre s) rfl

/-- componentwise description of `translateRoute`: the code's two-phase
computation (lookup array, then sentinel fixup over every index) agrees with
the per-component rule of the spec. -/
theorem translateRoute_componentwise (lookup : String → String) (pre path : String) :
    translateRoute lookup pre path =
      String.intercalate "/" ((jsSplit '/' path).map (translateSegmentSpec lookup pre)) := by
  unfold translateRoute
  exact congrArg (String.intercalate "/") (fixup_eq_spec lookup pre (jsSplit '/' path))

theorem mapFst_segObs (lookupT : String → String × Nat) (pre : String) (segs : List String) :
    (segs.map (segmentObservableT lookupT pre)).map Prod.fst =
      segs.map (fun part => if part.length ≠ 0 then (lookupT (pre ++ part)).1 else part) := by
  induction segs with
  | nil => rfl
  | cons s rest ih =>
    simp only [List.map_cons, ih, segmentObservableT, apply_ite Prod.fst]

theorem le_forkJoin_time (obs : List (String × Nat)) :
    ∀ o ∈ obs, o.2 ≤ (forkJoinT obs).2 := by
  induction obs with
  | nil => intro o ho; cases ho
  | cons x xs ih =>
    intro o ho
    rcases List.mem_cons.mp ho with h | h
    · subst h; exact le_max_left _ _
    · exact le_trans (ih o h) (le_max_right _ _)

theorem idemField (f : String → String) (v ov : Option String) :
    (if truthy (if truthy v then some (f (ov.getD "")) else v) then some (f (ov.getD ""))
     else if truthy v then some (f (ov.getD "")) else v) =
    (if truthy v then some (f (ov.getD "")) else v) := by
  cases hv : truthy v with
  | false => simp [hv]
  | true =>
    simp only [hv, if_true]
    cases htr : truthy (some (f (ov.getD ""))) with
    | false => simp [htr]
    | true => simp [htr]

mutual

theorem translateNode_idem (lookup : String → String) (pre : String) (r o : Route) :
    translateNode lookup pre (translateNode lookup pre r o) o = translateNode lookup pre r o := by
  match r, o with
  | .mk p rd pm none, .mk op ord opm ocs =>
    simp only [translateNode]
    rw [idemField, idemField]
  | .mk p rd pm (some l), .mk op ord opm ocs =>
    simp only [translateNode]
    rw [idemField, idemField, translateTreeList_idem]

theorem translateTreeList_idem (lookup : String → String) (pre : String) (rs os : List Route) :
    translateTreeList lookup pre (translateTreeList lookup pre rs os) os =
      translateTreeList lookup pre rs os := by
  match rs with
  | [] => rfl
  | r :: rest =>
    simp only [translateTreeList]
    exact congrArg₂ _ (translateNode_idem lookup pre r (os.headD emptyRoute))
      (translateTreeList_idem lookup pre rest os.tail)

end

mutual

theorem cloneRoute_id (r : Route) : cloneRoute r = r := by
  match r with
  | .mk p rd pm none => rfl
  | .mk p rd pm (some cs) =>
    simp only [cloneRoute]
    rw [cloneRoutes_id]

theorem cloneRoutes_id (rs : List Route) : cloneRoutes rs = rs := by
  match rs with
  | [] => rfl
  | r :: rest =>
    simp only [cloneRoutes]
    rw [cloneRoute_id, cloneRoutes_id]

end

/-! ## Claim theorems -/

/-- a two-level tree on which the promise bookkeeping of
`_translateRouteTree` can be inspected: a root node with a truthy path and
one child with a truthy path. -/
def nestedTree : List Route :=
  [Route.mk (some "home") none none
    (some [Route.mk (some "about") none none none])]

/-- C1: the promise `_translateRouteTree` returns is `Promise.all` over the
promises collected by the top invocation only; the recursive call on
`children` creates the child node's translation promise but the promise it
returns is dropped, never pushed into the collected array.  On the concrete
two-level tree the walk creates the promises at positions `[0]` (node
`home`) and `[0, 0]` (child `about`), while the returned promise awaits only
the one at `[0]`: the child promise is created yet not awaited, so the
returned promise does not gate on every node of the tree as the claim
states. -/
theorem translateRouteTree_drops_child_promise :
    collectedKeys [] 0 nestedTree = [([0], "path")] ∧
    allKeysList [] 0 nestedTree = [([0], "path"), ([0, 0], "path")] ∧
    ([0, 0], "path") ∉ collectedKeys [] 0 nestedTree := by
  decide

/-- C2: re-translation is drift-free.  Every field written by the tree
translator is computed from the aligned ORIGINAL node (the `target` argument
of `_getTranslatePromise` is `originals[index]`), never from the previously
written live value, so translating the live tree to a locale and then
translating the result to the same locale again yields exactly the same live
tree as translating once. -/
theorem translateTree_retranslation_idempotent (lookup : String → String) (pre : String)
    (live originals : List Route) :
    translateTreeList lookup pre (translateTreeList lookup pre live originals) originals =
      translateTreeList lookup pre live originals :=
  translateTreeList_idem lookup pre live originals

/-- C3: `translateRoute` splits the path on `/` and translates it
componentwise: an empty component passes through unchanged and its
observable is the synchronously emitting `Observable.of` (latency 0 in the
timed model); a non-empty component `s` is looked up under `pre ++ s`, falls
back to `s` exactly when the lookup result equals that key (the miss
sentinel), and is the lookup result otherwise. -/
theorem translateRoute_segment_rule (lookup : String → String) (pre path : String) :
    translateRoute lookup pre path =
      String.intercalate "/" ((jsSplit '/' path).map (translateSegmentSpec lookup pre)) ∧
    ∀ lookupT : String → String × Nat, segmentObservableT lookupT pre "" = ("", 0) :=
  ⟨translateRoute_componentwise lookup pre path, fun _ => rfl⟩

/-- C4: index-stable aggregation.  In the timed model the string
`translateRoute` produces is independent of every lookup latency — it always
equals the untimed result computed from the lookup values in original
segment order — and the translation settles no earlier than the slowest
segment lookup (`forkJoin` waits for all). -/
theorem translateRoute_order_stable (lookupT : String → String × Nat) (pre path : String) :
    (translateRouteT lookupT pre path).1 = translateRoute (fun k => (lookupT k).1) pre path ∧
    ((jsSplit '/' path).all (fun s =>
      (segmentObservableT lookupT pre s).2 ≤ (translateRouteT lookupT pre path).2)) = true := by
  constructor
  · unfold translateRouteT translateRoute forkJoinT
    simp only
    rw [mapFst_segObs]
  · rw [List.all_eq_true]
    intro s hs
    have hmem : segmentObservableT lookupT pre s ∈
        (jsSplit '/' path).map (segmentObservableT lookupT pre) :=
      List.mem_map_of_mem _ hs
    have := le_forkJoin_time ((jsSplit '/' path).map (segmentObservableT lookupT pre)) _ hmem
    simpa [translateRouteT] using this

/-- C9 counterexample: `translateRoute` does not special-case parameterized
segments; it looks `:id` up like any other non-empty segment.  With a
provider that registers a translation under the key `ROUTES.:id`, the
translated path for `user/:id` is `user/X`: the `:id` component is replaced,
so it is not left intact "regardless of the lookup provider's contents". -/
theorem translateRoute_param_translated_cex :
    translateRoute (fun k => if k = "ROUTES.:id" then "X" else k) "ROUTES." "user/:id" =
      "user/X" ∧
    isParamSegment ":id" = true ∧
    ("user/X" : String) ≠ "user/:id" := by
  decide

/-- C9 amended: a parameterized segment is looked up like any other
non-empty segment under `pre ++ segment`; whenever the provider has no
translation registered under such a key (it returns the key verbatim, its
miss sentinel), every parameterized component of the path is copied
unchanged while the remaining components follow the ordinary
componentwise rule. -/
theorem translateRoute_param_passthrough (lookup : String → String) (pre path : String)
    (h : ∀ s ∈ jsSplit '/' path, isParamSegment s = true → lookup (pre ++ s) = pre ++ s) :
    translateRoute lookup pre path =
      String.intercalate "/" ((jsSplit '/' path).map (fun s =>
        if isParamSegment s then s else translateSegmentSpec lookup pre s)) := by
  rw [translateRoute_componentwise]
  refine congrArg _ (List.map_congr_left ?_)
  intro s hs
  by_cases hp : isParamSegment s = true
  · rw [if_pos hp]
    unfold translateSegmentSpec
    rw [h s hs hp]
    by_cases hse : s = ""
    · rw [if_pos hse]
    · rw [if_neg hse, if_pos rfl]
  · rw [if_neg hp]

/-- C9 witness: with the identity provider (every lookup misses), the
amended theorem applies to `user/:id` and the parameterized component
survives translation unchanged. -/
theorem translateRoute_param_passthrough_witness :
    translateRoute (fun k => k) "ROUTES." "user/:id" = "user/:id" := by
  have h := translateRoute_param_passthrough (fun k => k) "ROUTES." "user/:id"
    (fun s _ _ => rfl)
  exact h.trans (by decide)

theorem jsOr_none_left (b : Option String) : jsOr none b = b := by
  simp [jsOr, truthy]

theorem jsOr_some_left (a : String) (b : Option String) (ha : a ≠ "") :
    jsOr (some a) b = some a := by
  simp [jsOr, truthy, ha]

theorem inLocales_iff (locales : List String) (s : String) :
    inLocales locales s = true ↔ s ∈ locales := by
  simp [inLocales]

theorem mem_ne_empty (locales : List String) (l : String)
    (hempty : ("" : String) ∉ locales) (h : l ∈ locales) : l ≠ "" :=
  fun he => hempty (he ▸ h)

theorem returnIfInLocales_none (locales : List String) :
    returnIfInLocales locales none = none := by
  simp [returnIfInLocales, truthy]

theorem returnIfInLocales_valid (locales : List String) (c : String)
    (h1 : c ≠ "") (h2 : c ∈ locales) :
    returnIfInLocales locales (some c) = some c := by
  simp [returnIfInLocales, truthy, h1, Option.any, (inLocales_iff locales c).mpr h2]

theorem returnIfInLocales_invalid (locales : List String) (c : String)
    (h : c ∉ locales ∨ c = "") :
    returnIfInLocales locales (some c) = none := by
  rcases h with h | h
  · have : inLocales locales c = false := by
      cases hc : inLocales locales c with
      | false => rfl
      | true => exact absurd ((inLocales_iff locales c).mp hc) h
    simp [returnIfInLocales, Option.any, this]
  · simp [returnIfInLocales, truthy, h]

theorem getLocationLang_eq_none (locales : List String) (url : String)
    (h : ∀ l ∈ locales,
      (jsSplit '/' url).get? 0 ≠ some l ∧ (jsSplit '/' url).get? 1 ≠ some l) :
    getLocationLang locales url = none := by
  unfold getLocationLang
  dsimp only
  have h1 : ((jsSplit '/' url).get? 1).any (inLocales locales) = false := by
    cases hg : (jsSplit '/' url).get? 1 with
    | none => rfl
    | some s =>
      cases hc : inLocales locales s with
      | false => simp [Option.any, hc]
      | true => exact absurd hg (h s ((inLocales_iff locales s).mp hc)).2
  have h0 : ((jsSplit '/' url).get? 0).any (inLocales locales) = false := by
    cases hg : (jsSplit '/' url).get? 0 with
    | none => rfl
    | some s =>
      cases hc : inLocales locales s with
      | false => simp [Option.any, hc]
      | true => exact absurd hg (h s ((inLocales_iff locales s).mp hc)).1
  rw [h1, h0]
  simp

/-- C5 counterexample: with the locale set `["en", ""]` (the empty string a
member), a url whose components carry no locale, no cached locale and the
client locale `""` — a member of the set — the claim's precedence resolves
to the client locale `""`, but the code filters the empty string out
(`_returnIfInLocales` tests truthiness first) and falls through to the
set's first element `"en"`. -/
theorem resolveInitialLocale_empty_member_cex :
    resolveInitialLocale ["en", ""] "x" none (some "") = some "en" ∧
    ("" : String) ∈ ["en", ""] ∧
    (∀ s ∈ jsSplit '/' "x", s ∉ (["en", ""] : List String)) ∧
    some "en" ≠ some ("" : String) := by
  decide

/-- C5 amended: provided the empty string is not a member of the locale set
(the code treats an empty string as absent at every stage), initial-locale
resolution is the claimed first-match precedence: (1) a locale-set member
found at the url's first or second path component wins regardless of the
cached and client values; else (2) the cached locale when non-empty and a
member; else (3) the client locale when a member; else (4) the set's first
element. -/
theorem resolveInitialLocale_precedence (locales : List String) (url : String)
    (cached client : Option String) (hempty : ("" : String) ∉ locales) :
    (∀ l ∈ locales,
      ((jsSplit '/' url).get? 0 = some l ∨ (jsSplit '/' url).get? 1 = some l) →
      ∃ m ∈ locales,
        resolveInitialLocale locales url cached client = some m ∧
        ((jsSplit '/' url).get? 0 = some m ∨ (jsSplit '/' url).get? 1 = some m)) ∧
    ((∀ l ∈ locales,
        (jsSplit '/' url).get? 0 ≠ some l ∧ (jsSplit '/' url).get? 1 ≠ some l) →
      ∀ c, cached = some c → c ≠ "" → c ∈ locales →
        resolveInitialLocale locales url cached client = some c) ∧
    ((∀ l ∈ locales,
        (jsSplit '/' url).get? 0 ≠ some l ∧ (jsSplit '/' url).get? 1 ≠ some l) →
      (∀ c, cached = some c → c ∉ locales ∨ c = "") →
      ∀ b, client = some b → b ∈ locales →
        resolveInitialLocale locales url cached client = some b) ∧
    ((∀ l ∈ locales,
        (jsSplit '/' url).get? 0 ≠ some l ∧ (jsSplit '/' url).get? 1 ≠ some l) →
      (∀ c, cached = some c → c ∉ locales ∨ c = "") →
      (∀ b, client = some b → b ∉ locales) →
      resolveInitialLocale locales url cached client = locales.get? 0) := by
  have hcachedCase : ∀ (h : ∀ c, cached = some c → c ∉ locales ∨ c = ""),
      returnIfInLocales locales cached = none := by
    intro h
    cases hc : cached with
    | none => exact returnIfInLocales_none locales
    | some c => exact returnIfInLocales_invalid locales c (h c hc)
  have hclientCase : ∀ (h : ∀ b, client = some b → b ∉ locales),
      returnIfInLocales locales client = none := by
    intro h
    cases hc : client with
    | none => exact returnIfInLocales_none locales
    | some b => exact returnIfInLocales_invalid locales b (Or.inl (h b hc))
  refine ⟨?_, ?_, ?_, ?_⟩
  · intro l hl hpos
    cases h1 : ((jsSplit '/' url).get? 1).any (inLocales locales) with
    | true =>
      obtain ⟨s, hs⟩ : ∃ s, (jsSplit '/' url).get? 1 = some s := by
        cases hg : (jsSplit '/' url).get? 1 with
        | none => rw [hg] at h1; cases h1
        | some s => exact ⟨s, rfl⟩
      have hsmem : s ∈ locales := by
        rw [hs] at h1
        exact (inLocales_iff locales s).mp h1
      refine ⟨s, hsmem, ?_, Or.inr hs⟩
      unfold resolveInitialLocale getLocationLang
      dsimp only
      rw [h1]
      simp only [if_true]
      rw [hs]
      exact jsOr_some_left s _ (mem_ne_empty locales s hempty hsmem)
    | false =>
      have h0pos : (jsSplit '/' url).get? 0 = some l := by
        rcases hpos with h | h
        · exact h
        · rw [h] at h1
          have : inLocales locales l = true := (inLocales_iff locales l).mpr hl
          simp [Option.any, this] at h1
      have h0 : ((jsSplit '/' url).get? 0).any (inLocales locales) = true := by
        rw [h0pos]
        simpa [Option.any] using (inLocales_iff locales l).mpr hl
      refine ⟨l, hl, ?_, Or.inl h0pos⟩
      unfold resolveInitialLocale getLocationLang
      dsimp only
      rw [h1, h0]
      simp only [Bool.false_eq_true, if_false, if_true]
      rw [h0pos]
      exact jsOr_some_left l _ (mem_ne_empty locales l hempty hl)
  · intro hno c hc hcne hcmem
    unfold resolveInitialLocale
    rw [getLocationLang_eq_none locales url hno, jsOr_none_left,
      resolveDefaultLanguage, hc, returnIfInLocales_valid locales c hcne hcmem]
    exact jsOr_some_left c _ hcne
  · intro hno hcached b hb hbmem
    unfold resolveInitialLocale
    rw [getLocationLang_eq_none locales url hno, jsOr_none_left,
      resolveDefaultLanguage, hcachedCase hcached, jsOr_none_left, hb,
      returnIfInLocales_valid locales b (mem_ne_empty locales b hempty hbmem) hbmem]
    exact jsOr_some_left b _ (mem_ne_empty locales b hempty hbmem)
  · intro hno hcached hclient
    unfold resolveInitialLocale
    rw [getLocationLang_eq_none locales url hno, jsOr_none_left,
      resolveDefaultLanguage, hcachedCase hcached, jsOr_none_left,
      hclientCase hclient, jsOr_none_left]

/-- C5 witness: cached precedence clause applied concretely — the url `/x`
carries no locale, the cached locale `fr` is a valid member, so resolution
returns `fr`. -/
theorem resolveInitialLocale_precedence_witness :
    resolveInitialLocale ["en", "fr"] "/x" (some "fr") none = some "fr" :=
  (resolveInitialLocale_precedence ["en", "fr"] "/x" (some "fr") none
    (by decide)).2.1 (by decide) "fr" rfl (by decide) (by decide)

/-- a parser state before any `load` call: no routes yet, locale set
`["en", "fr"]`, and a cached locale preference `fr` left in client storage
by an earlier session. -/
def stCachedFr : ParserState :=
  ⟨none, [], ["en", "fr"], none, none, some "fr"⟩

/-- a one-node route array used as concrete `load` input. -/
def aboutRoutes : List Route := [Route.mk (some "about") none none none]

/-- C6 counterexample: on the first load with a cached locale `fr`, the
redirect node the source builds carries `redirectTo: "fr"` — the resolved
default language (`_cachedLang || _getBrowserLang() || locales[0]`) — and
not the locale set's first element `"en"` as the claim states. -/
theorem init_redirect_not_first_locale_cex :
    ((init (fun k => k) "ROUTES." stCachedFr aboutRoutes "" none).routes.getD []).map
        Route.redirectTo = [some "fr", none] ∧
    stCachedFr.cachedLang = some "fr" ∧
    stCachedFr.locales.get? 0 = some "en" ∧
    ("fr" : String) ≠ "en" := by
  decide

/-- C6 amended: on the first load call with a non-empty locale set, the
original route tree becomes a structural deep copy of the supplied routes
(value-equal to them), and the live route array is rewritten to exactly two
root nodes — index 0 is `{path: '', redirectTo: d, pathMatch: 'full'}` where
`d` is the RESOLVED default language (the cached locale if valid, else the
client locale if valid, else the locale set's first element), and index 1 is
a container node whose `children` is the originally supplied routes array —
after which the whole tree is translated to the resolved initial locale. -/
theorem init_first_load_structure (lookup : String → String) (pre : String)
    (st : ParserState) (routes : List Route) (url : String) (browser : Option String)
    (hfirst : st.routes = none) (hne : st.locales.isEmpty = false) :
    (initFirstRestructured st routes browser).originalRouteNames = routes ∧
    (initFirstRestructured st routes browser).routes = some
      [Route.mk (some "") (resolveDefaultLanguage st.locales st.cachedLang browser)
        (some "full") none,
       Route.mk none none none (some routes)] ∧
    init lookup pre st routes url browser =
      translateRoutesState lookup pre (initFirstRestructured st routes browser)
        (resolveInitialLocale st.locales url st.cachedLang browser) := by
  refine ⟨?_, rfl, ?_⟩
  · simp [initFirstRestructured, cloneRoutes_id]
  · cases st with
    | mk r o loc cur dflt cach =>
      simp only at hfirst
      subst hfirst
      simp only at hne
      simp only [init, hne, Bool.false_eq_true, if_false]

/-- C6 witness: the amended structure theorem applied at a concrete first
load (no cached or client locale, so the resolved default is the set's
first element). -/
theorem init_first_load_structure_witness :
    (initFirstRestructured ⟨none, [], ["en", "fr"], none, none, none⟩ aboutRoutes
      none).originalRouteNames = aboutRoutes :=
  (init_first_load_structure (fun k => k) "ROUTES."
    ⟨none, [], ["en", "fr"], none, none, none⟩ aboutRoutes "/fr/about" none rfl rfl).1

theorem firstIdx_of_not_mem (x : String) (l : List String) (h : x ∉ l) :
    firstIdx x l = none := by
  induction l with
  | nil => rfl
  | cons y ys ih =>
    have hy : ¬(y = x) := by
      intro he
      apply h
      rw [he]
      exact List.mem_cons_self x ys
    rw [firstIdx, if_neg hy, ih (fun hm => h (List.mem_cons_of_mem y hm))]
    rfl

/-- C7: the url post-processing of `changeLanguage` with "always set
prefix" disabled.  Removal: when the new locale (`currentLang`, already set
to the new locale) equals the default locale and its segment sits at
position 0, or at position 1 behind an empty leading segment, that segment
is removed.  Insertion: when the new locale differs from the default and
occurs nowhere among the segments, it is inserted at the position
immediately following a leading empty segment (position 0 otherwise). -/
theorem changeLanguage_prefix_policy (lang defaultLang : String) (url : String) :
    (lang = defaultLang →
      ((jsSplit '/' url).get? 0 = some lang ∨
        ((jsSplit '/' url).get? 0 = some "" ∧ (jsSplit '/' url).get? 1 = some lang)) →
      processChangeUrl false lang defaultLang url =
        String.intercalate "/"
          (if (jsSplit '/' url).get? 0 = some lang then (jsSplit '/' url).drop 1
           else (jsSplit '/' url).take 1 ++ (jsSplit '/' url).drop 2)) ∧
    (lang ≠ defaultLang → lang ∉ jsSplit '/' url →
      processChangeUrl false lang defaultLang url =
        String.intercalate "/"
          (if (jsSplit '/' url).get? 0 = some "" then
            (jsSplit '/' url).take 1 ++ lang :: (jsSplit '/' url).drop 1
           else lang :: jsSplit '/' url)) := by
  constructor
  · intro hld hpos
    unfold processChangeUrl
    dsimp only
    simp only [Bool.false_eq_true, if_false]
    rw [if_pos hld]
    by_cases h0 : (jsSplit '/' url).get? 0 = some lang
    · obtain ⟨rest, hsegs⟩ : ∃ rest, jsSplit '/' url = lang :: rest := by
        cases hs : jsSplit '/' url with
        | nil => rw [hs, List.get?_nil] at h0; cases h0
        | cons a t =>
          rw [hs, List.get?_cons_zero] at h0
          exact ⟨t, by rw [Option.some.inj h0]⟩
      rw [hsegs] at h0 ⊢
      have hf : firstIdx lang (lang :: rest) = some 0 := by simp [firstIdx]
      rw [hf]
      dsimp only
      rw [if_pos (Or.inl rfl), if_pos h0]
      rfl
    · have hp : (jsSplit '/' url).get? 0 = some "" ∧ (jsSplit '/' url).get? 1 = some lang := by
        rcases hpos with h | h
        · exact absurd h h0
        · exact h
      obtain ⟨t2, hsegs⟩ : ∃ t2, jsSplit '/' url = "" :: lang :: t2 := by
        cases hs : jsSplit '/' url with
        | nil => rw [hs, List.get?_nil] at hp; cases hp.1
        | cons a t =>
          rw [hs, List.get?_cons_zero] at hp
          cases t with
          | nil =>
            have h1 := hp.2
            rw [List.get?_cons_succ, List.get?_nil] at h1
            cases h1
          | cons b t2 =>
            have ha : a = "" := Option.some.inj hp.1
            have hb : b = lang := by
              have h1 := hp.2
              rw [List.get?_cons_succ, List.get?_cons_zero] at h1
              exact Option.some.inj h1
            exact ⟨t2, by rw [ha, hb]⟩
      have hne : ¬(("" : String) = lang) := by
        intro he
        apply h0
        rw [hsegs, he]
        rfl
      rw [hsegs] at h0 ⊢
      have hf : firstIdx lang ("" :: lang :: t2) = some 1 := by
        simp [firstIdx, hne]
      rw [hf]
      dsimp only
      rw [if_pos (Or.inr ⟨rfl, rfl⟩), if_neg h0]
  · intro hne hnm
    unfold processChangeUrl
    dsimp only
    simp only [Bool.false_eq_true, if_false]
    rw [if_neg hne, firstIdx_of_not_mem lang _ hnm]
    dsimp only
    by_cases h0 : (jsSplit '/' url).get? 0 = some ""
    · rw [if_pos h0, if_pos h0]
    · rw [if_neg h0, if_neg h0]
      rfl

/-- C7 witness: the removal clause applied concretely — after
`changeLanguage('en')` with default `en`, the reconstructed url `/en/about`
loses the locale segment at position 1 behind the leading empty segment,
giving `/about`. -/
theorem changeLanguage_prefix_policy_witness :
    processChangeUrl false "en" "en" "/en/about" = "/about" := by
  have h := (changeLanguage_prefix_policy "en" "en" "/en/about").1 rfl
    (Or.inr ⟨by decide, by decide⟩)
  exact h.trans (by decide)

/-- C8 counterexample: in the effect trace of `changeLanguage('fr')` from
active locale `en`, the active-locale write occurs at position 1 and the
cached-preference write at position 2, both strictly before the navigation
at position 5 — `translateRoutes` performs these assignments synchronously
when it is called, and navigation is only issued in the completion
callback.  The claim's order (navigation first, updates afterwards) is
therefore false. -/
theorem localeChange_update_before_navigation_cex :
    (changeLanguageTrace "fr" (some "en") "u").indexOf (Event.setCurrentLang "fr") = 1 ∧
    (changeLanguageTrace "fr" (some "en") "u").indexOf (Event.setCachedLang "fr") = 2 ∧
    (changeLanguageTrace "fr" (some "en") "u").indexOf (Event.navigate "u") = 5 ∧
    Event.setCurrentLang "fr" ∈ changeLanguageTrace "fr" (some "en") "u" ∧
    Event.navigate "u" ∈ changeLanguageTrace "fr" (some "en") "u" := by
  decide

/-- C8 amended: the order is the reverse of the claimed one — during a
locale change the active-locale field and the cached locale preference are
updated first (synchronously, at the start of `translateRoutes`), and
navigation to the reconstructed URL is triggered only afterwards, in the
callback that runs when tree translation completes: in the effect trace
every update event precedes every navigation event. -/
theorem localeChange_updates_precede_navigation (lang : String) (cur : Option String)
    (url : String) (h : cur ≠ some lang) :
    ∀ i j, ((changeLanguageTrace lang cur url).get? i).any isLangUpdate = true →
      ((changeLanguageTrace lang cur url).get? j).any isNavigate = true → i < j := by
  intro i j hi hj
  simp only [changeLanguageTrace, if_neg h, translateRoutesTrace, List.cons_append,
    List.nil_append] at hi hj
  have hib : i < 6 := by
    by_contra hc
    push_neg at hc
    rw [List.get?_eq_none.mpr (by simpa using hc)] at hi
    simp [Option.any] at hi
  have hjb : j < 6 := by
    by_contra hc
    push_neg at hc
    rw [List.get?_eq_none.mpr (by simpa using hc)] at hj
    simp [Option.any] at hj
  interval_cases i <;> interval_cases j <;>
    simp_all [Option.any, isLangUpdate, isNavigate]

/-- C8 witness: the amended ordering theorem applied at the concrete trace
of `changeLanguage('fr')` from `en`: the active-locale write (position 1)
precedes the navigation (position 5). -/
theorem localeChange_updates_precede_navigation_witness : (1 : Nat) < 5 :=
  localeChange_updates_precede_navigation "fr" (some "en") "u" (by decide)
    1 5 (by decide) (by decide)

/-- a parser state after a successful initialization on the locale set
`["en", "fr"]` with active locale `en`. -/
def stActiveEn : ParserState :=
  ⟨some [], [], ["en", "fr"], some "en", some "en", some "en"⟩

/-- C10 counterexample: `changeLanguage` (and the `translateRoutes` it
calls) writes its argument into the active-locale field without any
membership check, so `changeLanguage('xx')` on the locale set
`["en", "fr"]` leaves the active locale `xx`, which is not a member: the
membership invariant is not preserved for every input locale string. -/
theorem changeLanguage_nonmember_breaks_invariant_cex :
    langInvariant stActiveEn = true ∧
    (changeLanguageState (fun k => k) "ROUTES." stActiveEn "xx").currentLang = some "xx" ∧
    ("xx" : String) ∉ (changeLanguageState (fun k => k) "ROUTES." stActiveEn "xx").locales ∧
    langInvariant (changeLanguageState (fun k => k) "ROUTES." stActiveEn "xx") = false := by
  decide

/-- C10 amended: the membership invariant holds for the operations that
derive the locale themselves — initial-locale resolution only produces
members of the locale set, `init` preserves the invariant for every input,
and the route-change handler preserves it for every url — while
`translateRoutes` and `changeLanguage` write their caller-supplied locale
unconditionally and therefore preserve membership only when that argument
is a member of the set. -/
theorem activeLocale_membership (lookup : String → String) (pre : String) :
    (∀ locales url cached browser l,
      resolveInitialLocale locales url cached browser = some l → l ∈ locales) ∧
    (∀ st routes url browser, langInvariant st = true →
      langInvariant (init lookup pre st routes url browser) = true) ∧
    (∀ st lang, lang ∈ st.locales →
      langInvariant (translateRoutesState lookup pre st (some lang)) = true) ∧
    (∀ st lang, langInvariant st = true → lang ∈ st.locales →
      langInvariant (changeLanguageState lookup pre st lang) = true) ∧
    (∀ st url, langInvariant st = true →
      langInvariant (routeChangedState lookup pre st url) = true) := by
  have hjsOr : ∀ (a b : Option String) (l : String), jsOr a b = some l →
      a = some l ∨ b = some l := by
    intro a b l h
    unfold jsOr at h
    split at h
    · exact Or.inl h
    · exact Or.inr h
  have hloc : ∀ (locales : List String) (url : String) (l : String),
      getLocationLang locales url = some l → l ∈ locales := by
    intro locales url l h
    unfold getLocationLang at h
    dsimp only at h
    split at h
    next hc =>
      rw [h] at hc
      simpa [Option.any, inLocales] using hc
    next =>
      split at h
      next hc0 =>
        rw [h] at hc0
        simpa [Option.any, inLocales] using hc0
      next => cases h
  have hret : ∀ (locales : List String) (v : Option String) (l : String),
      returnIfInLocales locales v = some l → l ∈ locales := by
    intro locales v l h
    unfold returnIfInLocales at h
    split at h
    next hc =>
      rw [h] at hc
      have := (Bool.and_eq_true _ _).mp hc
      simpa [Option.any, inLocales] using this.2
    next => cases h
  have hres : ∀ (locales : List String) (url : String) (cached browser : Option String)
      (l : String), resolveInitialLocale locales url cached browser = some l →
      l ∈ locales := by
    intro locales url cached browser l h
    unfold resolveInitialLocale at h
    rcases hjsOr _ _ _ h with h1 | h2
    · exact hloc locales url l h1
    · unfold resolveDefaultLanguage at h2
      rcases hjsOr _ _ _ h2 with h3 | h4
      · exact hret locales cached l h3
      · rcases hjsOr _ _ _ h4 with h5 | h6
        · exact hret locales browser l h5
        · exact List.get?_mem h6
  have hTR : ∀ (st : ParserState) (language : Option String),
      (∀ l, language = some l → l ∈ st.locales) →
      langInvariant (translateRoutesState lookup pre st language) = true := by
    intro st language hmem
    unfold langInvariant translateRoutesState
    cases language with
    | none => rfl
    | some l => simpa [Option.all, inLocales] using hmem l rfl
  have hInvMem : ∀ (cur : Option String) (loc : List String),
      cur.all (inLocales loc) = true → ∀ l, cur = some l → l ∈ loc := by
    intro cur loc hall l hl
    subst hl
    simpa [Option.all, inLocales] using hall
  refine ⟨hres, ?_, ?_, ?_, ?_⟩
  · intro st routes url browser hinv
    cases st with
    | mk r o loc cur dflt cach =>
      cases r with
      | some rs =>
        simp only [init]
        exact hTR _ cur (hInvMem cur loc (by simpa [langInvariant] using hinv))
      | none =>
        simp only [init]
        by_cases he : loc.isEmpty
        · rw [if_pos he]
          simpa [langInvariant] using hinv
        · rw [if_neg he]
          exact hTR _ _ (fun l hl => hres _ _ _ _ l hl)
  · intro st lang hmem
    exact hTR st (some lang) (fun l hl => Option.some.inj hl ▸ hmem)
  · intro st lang hinv hmem
    unfold changeLanguageState
    split
    · exact hinv
    · exact hTR st (some lang) (fun l hl => Option.some.inj hl ▸ hmem)
  · intro st url hinv
    unfold routeChangedState
    cases hg : getLocationLang st.locales url with
    | none => exact hinv
    | some l =>
      dsimp only
      by_cases hc : l ≠ "" ∧ st.currentLang ≠ some l
      · rw [if_pos hc]
        exact hTR st (some l) (fun m hm => Option.some.inj hm ▸ hloc st.locales url l hg)
      · rw [if_neg hc]
        exact hinv

/-- C10 witness: the amended theorem applied concretely — switching to the
member locale `fr` from the initialized state preserves the invariant. -/
theorem activeLocale_membership_witness :
    langInvariant (changeLanguageState (fun k => k) "ROUTES." stActiveEn "fr") = true :=
  (activeLocale_membership (fun k => k) "ROUTES.").2.2.2.1 stActiveEn "fr"
    (by decide) (by decide)

end LocalizeRouter
